import Mathlib

/-!
Verification model of the `libra` weighing core (src/lib.rs, src/scale.rs).

Conventions of the shallow embedding:
* `f64` sample values are modelled by `F`: either NaN or an exactly
  representable rational value.  All arithmetic in the claims uses small
  exact values, so rationals are faithful to the source computations.
* A Rust panic (comparator `unwrap` on `partial_cmp`, or an out-of-bounds
  slice index) is modelled by `Option`: `none` is a panic, `some` a returned
  value.
* Fallible hardware interaction (`voltage_ratio`, `open_wait`,
  `set_serial_number`) is modelled by environments: functions returning
  `Except` values, consumed in the same order as the source performs the
  corresponding calls.
* `std::time::Instant::now` is modelled by a clock `now : Nat → ℚ` indexed
  by the number of prior `now` calls; `Instant` is monotone, so the
  saturating subtraction of the source equals plain subtraction.
-/

namespace Libra

/-- Model of an `f64` weight sample: either NaN or a rational value.  NaN is
the only source of incomparability relevant to the sort comparator. -/
inductive F where
  | nan : F
  | val : ℚ → F
deriving DecidableEq

/-- Model of `a.partial_cmp(b)` on `f64`: `none` exactly when either operand
is NaN, otherwise the order of the two rational values. -/
def pcmp : F → F → Option Ordering
  | F.val a, F.val b =>
      some (if a < b then Ordering.lt else if b < a then Ordering.gt else Ordering.eq)
  | _, _ => none

/-- One insertion step of the stable ascending sort performed by
`weights.sort_by(|a, b| a.partial_cmp(b).unwrap())`: insert `x` into an
already sorted list.  `none` models the `unwrap` panic inside the
comparator. -/
def insertM (x : F) : List F → Option (List F)
  | [] => some [x]
  | y :: ys =>
    match pcmp x y with
    | none => none
    | some o =>
      if o = Ordering.gt then (insertM x ys).map (fun zs => y :: zs)
      else some (x :: y :: ys)

/-- Model of `weights.sort_by(|a, b| a.partial_cmp(b).unwrap())`: a stable
ascending sort that panics (`none`) exactly when the comparator is invoked
on a NaN.  A slice of length below two performs no comparison at all, as in
the source sort. -/
def sortByM : List F → Option (List F)
  | [] => some []
  | x :: xs => (sortByM xs).bind (insertM x)

/-- `median` from src/lib.rs: sort the slice in place with the partial_cmp
comparator, then return `weights[weights.len() / 2]`.  `none` models a
panic: either the comparator unwrap on a NaN, or the out-of-bounds index on
an empty slice. -/
def median (weights : List F) : Option F :=
  (sortByM weights).bind (fun s => s.get? (s.length / 2))

/-- The per-channel median the specification claims (sorted ascending, index
`len / 2`), used to compare `get_raw_medians` against its contract. -/
def medianQ (l : List ℚ) : ℚ :=
  (List.insertionSort (· ≤ ·) l).getD (l.length / 2) 0

/-! ### The scale device model (src/scale.rs)

Channel handles (`VoltageRatioInput`) are opaque to the weighing core, so the
model is parametric in a handle type `H`.  Return codes of the phidget
driver are opaque integers. -/

/-- Model of `phidget::ReturnCode`: an opaque driver code. -/
abbrev ReturnCode := Nat

/-- `PhidgetError` from src/scale.rs: a driver return code together with the
index of the load cell (channel) it is attributed to. -/
structure PhidgetError where
  return_code : ReturnCode
  load_cell : Nat
deriving DecidableEq

/-- `ScaleError` from src/scale.rs. -/
inductive ScaleError where
  | invalidCoefficients : ScaleError
  | invalidPhidgetId : ScaleError
  | phidgetError : PhidgetError → ScaleError
  | ioError : ScaleError
deriving DecidableEq

/-- `ScaleError::phidget_error` from src/scale.rs. -/
def ScaleError.phidget_error (rc : ReturnCode) (load_cell : Nat) : ScaleError :=
  ScaleError.phidgetError ⟨rc, load_cell⟩

instance exceptDecidableEq {ε α : Type} [DecidableEq ε] [DecidableEq α] :
    DecidableEq (Except ε α) := fun a b =>
  match a, b with
  | Except.ok x, Except.ok y =>
    if h : x = y then isTrue (by rw [h]) else isFalse (by intro hc; cases hc; exact h rfl)
  | Except.error x, Except.error y =>
    if h : x = y then isTrue (by rw [h]) else isFalse (by intro hc; cases hc; exact h rfl)
  | Except.ok _, Except.error _ => isFalse (by intro hc; cases hc)
  | Except.error _, Except.ok _ => isFalse (by intro hc; cases hc)

/-- `dot_product` from src/scale.rs: zip the two slices, multiply pairwise
and sum (zip truncates to the shorter slice, as the iterators do). -/
def dot_product (a b : List ℚ) : ℚ :=
  ((a.zip b).map fun p => p.1 * p.2).sum

/-- `ConnectedScale` from src/scale.rs.  The `vins` array of four opened
channels is modelled as a list of opaque handles; 4-ness is proved where the
source guarantees it. -/
structure ConnectedScale (H : Type) where
  phidget_id : Int
  offset : ℚ
  coefficients : List ℚ
  vins : List H

/-- `ConnectedScale::update_coefficients`: rebuild the value with new
coefficients, passing every other field through unchanged.  Total: the
source function cannot fail. -/
def update_coefficients {H : Type} (s : ConnectedScale H) (coefficients : List ℚ) :
    ConnectedScale H :=
  { phidget_id := s.phidget_id
    offset := s.offset
    coefficients := coefficients
    vins := s.vins }

/-- `ConnectedScale::update_offset`: rebuild the value with a new offset,
passing every other field through unchanged.  Total: the source function
cannot fail. -/
def update_offset {H : Type} (s : ConnectedScale H) (offset : ℚ) : ConnectedScale H :=
  { phidget_id := s.phidget_id
    offset := offset
    coefficients := s.coefficients
    vins := s.vins }

/-- The body of `ConnectedScale::get_raw_readings`: walk the channel handles
in order, reading each via `voltage_ratio` (modelled by `read`); the first
driver error aborts the walk, tagged with the faulting channel index.  The
second component instruments the walk with the list of channel indices
actually read, in order, so that short-circuiting is provable. -/
def rawLoop {H : Type} (read : H → Except ReturnCode ℚ) :
    Nat → List H → Except ScaleError (List ℚ) × List Nat
  | _, [] => (Except.ok [], [])
  | i, h :: rest =>
    match read h with
    | Except.error rc => (Except.error (ScaleError.phidget_error rc i), [i])
    | Except.ok v =>
      let (r, tr) := rawLoop read (i + 1) rest
      (r.map (fun vs => v :: vs), i :: tr)

/-- `ConnectedScale::get_raw_readings` with its instrumentation trace. -/
def getRawReadingsT {H : Type} (read : H → Except ReturnCode ℚ) (s : ConnectedScale H) :
    Except ScaleError (List ℚ) × List Nat :=
  rawLoop read 0 s.vins

/-- `ConnectedScale::get_raw_readings`: the result alone. -/
def get_raw_readings {H : Type} (read : H → Except ReturnCode ℚ) (s : ConnectedScale H) :
    Except ScaleError (List ℚ) :=
  (getRawReadingsT read s).1

/-- `ConnectedScale::get_weight`: dot the readings with the coefficients and
subtract the offset; propagate a readings error unchanged. -/
def get_weight {H : Type} (read : H → Except ReturnCode ℚ) (s : ConnectedScale H) :
    Except ScaleError ℚ :=
  match get_raw_readings read s with
  | Except.ok readings => Except.ok (dot_product readings s.coefficients - s.offset)
  | Except.error e => Except.error e

/-! ### The `get_median_weight` sampling loop

The loop interacts with the world through two oracles: the monotone clock
`now : Nat → ℚ` (the value of the n-th `Instant::now()` call) and the weight
oracle `gw : Nat → Except ScaleError F` (the result of the n-th
`self.get_weight()` call).  The loop body is modelled step for step:

  while weights.len() < samples:
    current = now()                      -- one clock call
    if current - init > interval:
      w = gw()?                          -- hardware read, error aborts
      push w; init = now()               -- a second clock call

`Instant` is monotone, so the saturating duration `current - init` of the
source equals rational subtraction.  Fuel bounds the number of loop
iterations; `none` means the fuel ran out with the loop still spinning.
Each accepted sample is recorded in the trace as
(check time, acceptance time, weight). -/
def gmwLoop (now : Nat → ℚ) (gw : Nat → Except ScaleError F) (interval : ℚ)
    (samples : Nat) :
    Nat → Nat → Nat → ℚ → List (ℚ × ℚ × F) →
      Option (Except ScaleError (List (ℚ × ℚ × F)))
  | 0, _, _, _, _ => none
  | fuel + 1, k, r, init, acc =>
    if samples ≤ acc.length then some (Except.ok acc.reverse)
    else
      let current := now k
      if current - init > interval then
        match gw r with
        | Except.error e => some (Except.error e)
        | Except.ok w =>
          gmwLoop now gw interval samples fuel (k + 2) (r + 1) (now (k + 1))
            ((current, now (k + 1), w) :: acc)
      else gmwLoop now gw interval samples fuel (k + 1) r init acc

/-- `ConnectedScale::get_median_weight`: run the paced sampling loop
(initial `init_time` is the very first `now` call, the loop then starts at
clock index 1 and weight index 0), then apply `median` to the collected
weights.  The outer `Option` is the fuel bound, the inner `Option` in the
result models the panic inside `median`. -/
def get_median_weight (now : Nat → ℚ) (gw : Nat → Except ScaleError F)
    (interval : ℚ) (samples fuel : Nat) :
    Option (Except ScaleError (Option F)) :=
  match gmwLoop now gw interval samples fuel 1 0 (now 0) [] with
  | none => none
  | some (Except.error e) => some (Except.error e)
  | some (Except.ok tr) => some (Except.ok (median (tr.map fun ev => ev.2.2)))

/-- The pacing contract of the loop trace: each accepted sample's check time
exceeds the previous acceptance time (initially the start of the call) by
more than the interval. -/
def Paced (interval : ℚ) : ℚ → List (ℚ × ℚ × F) → Prop
  | _, [] => True
  | prev, ev :: rest => ev.1 - prev > interval ∧ Paced interval ev.2.1 rest

/-! ### The connection path (`DisconnectedScale::connect`)

For each channel index in order the source creates a fresh
`VoltageRatioInput`, binds it to the device identifier
(`set_serial_number`, any failure becomes `InvalidPhidgetId`), sets the
channel number (infallible for indices below the channel count) and opens it
(`open_wait`, a failure becomes a `PhidgetError` tagged with the index).
Whether binding an identifier succeeds is a property of the identifier and
driver state, not of the individual fresh channel object, so it is modelled
by a single Boolean.  The trace instruments which driver calls happen. -/

/-- One observable driver call made during `connect`. -/
inductive ConnEvent where
  | bindId : Nat → ConnEvent
  | openw : Nat → ConnEvent
deriving DecidableEq

/-- The driver environment seen by `connect`. -/
structure PhidgetEnv (H : Type) where
  bindOk : Bool
  openResult : Nat → Except ReturnCode H

/-- The channel-opening loop of `connect`, over the channel indices
`i, i+1, ..., i+n-1`, with the instrumenting trace of driver calls. -/
def connectLoop {H : Type} (env : PhidgetEnv H) :
    Nat → Nat → Except ScaleError (List H) × List ConnEvent
  | _, 0 => (Except.ok [], [])
  | i, n + 1 =>
    if env.bindOk then
      match env.openResult i with
      | Except.error rc =>
        (Except.error (ScaleError.phidget_error rc i), [ConnEvent.bindId i, ConnEvent.openw i])
      | Except.ok h =>
        let (r, tr) := connectLoop env (i + 1) n
        (r.map (fun hs => h :: hs), ConnEvent.bindId i :: ConnEvent.openw i :: tr)
    else (Except.error ScaleError.invalidPhidgetId, [ConnEvent.bindId i])

/-- `DisconnectedScale::connect`: open the four channels in index order; on
success assemble the `ConnectedScale` from the identifier, the supplied
calibration and the four opened handles. -/
def connect {H : Type} (phidget_id : Int) (offset : ℚ) (coefficients : List ℚ)
    (env : PhidgetEnv H) :
    Except ScaleError (ConnectedScale H) × List ConnEvent :=
  match connectLoop env 0 4 with
  | (Except.error e, tr) => (Except.error e, tr)
  | (Except.ok vins, tr) =>
    (Except.ok { phidget_id := phidget_id, offset := offset,
                 coefficients := coefficients, vins := vins }, tr)

/-! ### `get_raw_medians`

The source collects, for `samples` rounds, one reading per channel in
channel order (`get_input_reading(i)?`, the first driver error aborts the
whole call tagged with the channel).  It then evaluates, for each output
position, `medians.sort_by(...)` — which sorts the OUTER array of four
per-channel vectors lexicographically — followed by
`medians[vin][samples / 2]`.  The inner per-channel vectors are never
sorted.  Readings are modelled by `readAt channel round`. -/

/-- Lexicographic comparison of two `Vec<f64>` values (the order used by
`partial_cmp` on vectors), restricted to NaN-free contents. -/
def lexLe : List ℚ → List ℚ → Bool
  | [], _ => true
  | _ :: _, [] => false
  | a :: as, b :: bs => if a < b then true else if b < a then false else lexLe as bs

instance lexLeDecidable : DecidableRel (fun a b : List ℚ => lexLe a b = true) :=
  fun a b => inferInstanceAs (Decidable (lexLe a b = true))

/-- One round of the collection loop: push the reading of round `t` onto
each channel's vector, in channel order starting at `i`; the first driver
error aborts, tagged with the channel index. -/
def pushRound (readAt : Nat → Nat → Except ReturnCode ℚ) (t : Nat) :
    Nat → List (List ℚ) → Except ScaleError (List (List ℚ))
  | _, [] => Except.ok []
  | i, v :: rest =>
    match readAt i t with
    | Except.error rc => Except.error (ScaleError.phidget_error rc i)
    | Except.ok x => (pushRound readAt t (i + 1) rest).map (fun rs => (v ++ [x]) :: rs)

/-- The full collection: rounds `t, t+1, ...` while `n` rounds remain. -/
def grmRounds (readAt : Nat → Nat → Except ReturnCode ℚ) :
    Nat → Nat → List (List ℚ) → Except ScaleError (List (List ℚ))
  | _, 0, acc => Except.ok acc
  | t, n + 1, acc =>
    match pushRound readAt t 0 acc with
    | Except.error e => Except.error e
    | Except.ok acc2 => grmRounds readAt (t + 1) n acc2

/-- `ConnectedScale::get_raw_medians`: collect the per-channel vectors, sort
the outer array of vectors lexicographically (the source sorts `medians`,
not `medians[vin]`), and take element `samples / 2` of each vector in that
order.  In-bounds indexing is total here, so `getD` is exact on every input
exercised below. -/
def get_raw_medians (readAt : Nat → Nat → Except ReturnCode ℚ) (samples : Nat) :
    Except ScaleError (List ℚ) :=
  match grmRounds readAt 0 samples [[], [], [], []] with
  | Except.error e => Except.error e
  | Except.ok medians =>
    let sorted := List.insertionSort (fun a b => lexLe a b = true) medians
    Except.ok ((List.range 4).map fun vin => (sorted.getD vin []).getD (samples / 2) 0)

/-- The per-round reading table of the `get_raw_medians` counterexample:
channel 0 reads 3, 1, 2 over the three rounds; channels 1, 2, 3 read
ascending values in disjoint decades. -/
def demoRead : Nat → Nat → Except ReturnCode ℚ
  | 0, 0 => Except.ok 3
  | 0, 1 => Except.ok 1
  | 0, 2 => Except.ok 2
  | 1, 0 => Except.ok 10
  | 1, 1 => Except.ok 11
  | 1, 2 => Except.ok 12
  | 2, 0 => Except.ok 20
  | 2, 1 => Except.ok 21
  | 2, 2 => Except.ok 22
  | 3, 0 => Except.ok 30
  | 3, 1 => Except.ok 31
  | 3, 2 => Except.ok 32
  | _, _ => Except.ok 0

/-- A concrete clock for witnesses: strictly increasing over the first five
`Instant::now` calls. -/
def demoNow : Nat → ℚ
  | 0 => 0
  | 1 => 1
  | 2 => 2
  | 3 => 3
  | 4 => 4
  | _ => 100

/-- A weight oracle whose reads all succeed with the value 7. -/
def demoGw : Nat → Except ScaleError F := fun _ => Except.ok (F.val 7)

/-- A weight oracle whose second read (and every later one) fails. -/
def demoGwErr : Nat → Except ScaleError F
  | 0 => Except.ok (F.val 7)
  | _ => Except.error ScaleError.ioError

/-- A channel-read table where every handle reads 1. -/
def demoChanRead : Nat → Except ReturnCode ℚ := fun _ => Except.ok 1

/-- A channel-read table whose handles 0 and 1 read 1 and whose handle 2
(and beyond) faults with driver code 9. -/
def demoBadRead : Nat → Except ReturnCode ℚ
  | 0 => Except.ok 1
  | 1 => Except.ok 1
  | _ => Except.error 9

/-- A concrete connected scale over `Nat` handles for witnesses. -/
def demoScale : ConnectedScale Nat :=
  { phidget_id := 5, offset := 0, coefficients := [1, 2, 3, 4], vins := [0, 1, 2, 3] }

/-- A driver environment whose identifier binding fails. -/
def envBad : PhidgetEnv Nat :=
  { bindOk := false, openResult := fun _ => Except.ok 0 }

/-- A driver environment where channels 0 and 1 open but channel 2 faults
with driver code 9. -/
def envFault : PhidgetEnv Nat :=
  { bindOk := true
    openResult := fun j =>
      match j with
      | 0 => Except.ok 10
      | 1 => Except.ok 11
      | _ => Except.error 9 }

/-- A driver environment where every channel opens. -/
def envGood : PhidgetEnv Nat :=
  { bindOk := true, openResult := fun j => Except.ok (100 + j) }


-- Simulation: on NaN-free input the monadic insertion is Mathlib's
-- `orderedInsert` on the underlying rationals.
theorem insertM_map_val (a : ℚ) (ys : List ℚ) :
    insertM (F.val a) (ys.map F.val) =
      some ((List.orderedInsert (· ≤ ·) a ys).map F.val) := by
  induction ys with
  | nil => rfl
  | cons y ys ih =>
    by_cases hlt : a < y
    · simp [insertM, pcmp, List.orderedInsert, hlt, le_of_lt hlt]
    · by_cases hgt : y < a
      · have hnle : ¬ a ≤ y := not_le.mpr hgt
        simp [insertM, pcmp, List.orderedInsert, hlt, hgt, hnle, ih]
      · have hle : a ≤ y := le_of_not_lt hgt
        simp [insertM, pcmp, List.orderedInsert, hlt, hgt, hle]

theorem sortByM_map_val (l : List ℚ) :
    sortByM (l.map F.val) =
      some ((List.insertionSort (· ≤ ·) l).map F.val) := by
  induction l with
  | nil => rfl
  | cons x xs ih =>
    simp [sortByM, List.insertionSort, ih, insertM_map_val]

-- A successful monadic insertion permutes the inserted element into place.
theorem insertM_perm (x : F) (ys zs : List F) (h : insertM x ys = some zs) :
    zs.Perm (x :: ys) := by
  induction ys generalizing zs with
  | nil =>
    have h2 : [x] = zs := by injection h
    subst h2; exact List.Perm.refl _
  | cons y ys ih =>
    cases hc : pcmp x y with
    | none => simp [insertM, hc] at h
    | some o =>
      simp only [insertM, hc] at h
      by_cases ho : o = Ordering.gt
      · rw [if_pos ho] at h
        cases hz : insertM x ys with
        | none => rw [hz] at h; simp at h
        | some ws =>
          rw [hz] at h
          simp only [Option.map_some'] at h
          have hzs : y :: ws = zs := by injection h
          subst hzs
          exact ((ih ws hz).cons y).trans (List.Perm.swap x y ys)
      · rw [if_neg ho] at h
        have hzs : x :: y :: ys = zs := by injection h
        subst hzs; exact List.Perm.refl _

theorem sortByM_perm (l s : List F) (h : sortByM l = some s) : s.Perm l := by
  induction l generalizing s with
  | nil =>
    have h2 : [] = s := by injection h
    subst h2; exact List.Perm.refl _
  | cons x xs ih =>
    simp only [sortByM] at h
    cases hs : sortByM xs with
    | none => rw [hs] at h; simp at h
    | some t =>
      rw [hs] at h
      simp only [Option.some_bind] at h
      exact (insertM_perm x t s h).trans ((ih t hs).cons x)

-- A NaN-free list of samples is the image of a rational list.
theorem exists_map_val (l : List F) (h : F.nan ∉ l) :
    ∃ q : List ℚ, l = q.map F.val := by
  induction l with
  | nil => exact ⟨[], rfl⟩
  | cons x xs ih =>
    have hx : x ≠ F.nan := fun hx => h (hx ▸ List.mem_cons_self x xs)
    have hxs : F.nan ∉ xs := fun hm => h (List.mem_cons_of_mem x hm)
    obtain ⟨q, hq⟩ := ih hxs
    cases x with
    | nan => exact absurd rfl hx
    | val a => exact ⟨a :: q, by simp [hq]⟩

theorem pcmp_nan_right (x : F) : pcmp x F.nan = none := by
  cases x <;> rfl

theorem pcmp_nan_left (y : F) : pcmp F.nan y = none := by
  cases y <;> rfl

-- Sorting a slice of length at least two that contains a NaN panics: the
-- NaN is compared at least once and the comparator unwrap fails.
theorem sortByM_nan (l : List F) (hmem : F.nan ∈ l) (hlen : 2 ≤ l.length) :
    sortByM l = none := by
  induction l with
  | nil => simp at hmem
  | cons x xs ih =>
    rcases List.mem_cons.mp hmem with hx | hxs
    · -- the head is NaN; the sorted tail is non-empty, so inserting panics
      subst hx
      cases hs : sortByM xs with
      | none => simp [sortByM, hs]
      | some s =>
        have hxs_ne : xs ≠ [] := by
          intro hnil; subst hnil; simp at hlen
        have hslen := (sortByM_perm xs s hs).length_eq
        cases s with
        | nil =>
          exact absurd (List.length_eq_zero.mp (by simpa using hslen.symm)) hxs_ne
        | cons y ys =>
          simp [sortByM, hs, insertM, pcmp_nan_left]
    · -- the NaN is in the tail
      by_cases htwo : 2 ≤ xs.length
      · simp [sortByM, ih hxs htwo]
      · -- the tail has exactly one element, which must be the NaN
        have hone : xs.length = 1 := by
          have h1 : 0 < xs.length := List.length_pos.mpr (List.ne_nil_of_mem hxs)
          have h2 : 2 ≤ xs.length + 1 := by simpa using hlen
          omega
        obtain ⟨y, hy⟩ := List.length_eq_one.mp hone
        subst hy
        have hynan : y = F.nan := Eq.symm (by simpa using hxs)
        subst hynan
        simp [sortByM, insertM, pcmp_nan_right]

-- Sorting a NaN-free slice never panics.
theorem sortByM_isSome (l : List F) (h : F.nan ∉ l) :
    ∃ s, sortByM l = some s := by
  obtain ⟨q, hq⟩ := exists_map_val l h
  exact ⟨_, hq ▸ sortByM_map_val q⟩

-- The central characterization of `median` on comparable samples: it is the
-- element at index `length / 2` of any ascending sorted rearrangement.
theorem median_map_val (l s : List ℚ) (hs : List.Sorted (· ≤ ·) s) (hp : s.Perm l)
    (hi : l.length / 2 < s.length) :
    median (l.map F.val) = some (F.val (s.get ⟨l.length / 2, hi⟩)) := by
  have hins : s = List.insertionSort (· ≤ ·) l :=
    List.eq_of_perm_of_sorted (hp.trans (List.perm_insertionSort (· ≤ ·) l).symm) hs
      (List.sorted_insertionSort (· ≤ ·) l)
  subst hins
  have hlen2 : ((List.insertionSort (· ≤ ·) l).map F.val).length = l.length := by
    simp [List.length_insertionSort]
  rw [median, sortByM_map_val l, Option.some_bind, hlen2]
  have hi2 : l.length / 2 < ((List.insertionSort (· ≤ ·) l).map F.val).length := by
    rw [hlen2]
    exact lt_of_lt_of_le hi (le_of_eq (List.length_insertionSort (· ≤ ·) l))
  rw [List.get?_eq_get hi2]
  congr 1
  rw [List.get_map]


/-! ### Behaviour of the raw-readings walk -/

theorem range_shift (n m : Nat) :
    (List.range (m + 1)).map (fun j => n + j) =
      n :: (List.range m).map (fun j => n + 1 + j) := by
  rw [List.range_succ_eq_map, List.map_cons, List.map_map, Nat.add_zero]
  congr 1
  apply List.map_congr_left
  intro j _
  simp only [Function.comp_apply]
  omega

-- All channels read successfully: the readings come back in channel order
-- and every channel is visited exactly once, in ascending index order.
theorem rawLoop_ok {H : Type} (read : H → Except ReturnCode ℚ) (f : H → ℚ) :
    ∀ (vs : List H) (n : Nat), (∀ x ∈ vs, read x = Except.ok (f x)) →
      rawLoop read n vs =
        (Except.ok (vs.map f), (List.range vs.length).map (fun j => n + j)) := by
  intro vs
  induction vs with
  | nil => intro n _; simp [rawLoop]
  | cons x vs ih =>
    intro n hok
    have hx := hok x (List.mem_cons_self x vs)
    rw [rawLoop, hx, ih (n + 1) (fun y hy => hok y (List.mem_cons_of_mem x hy))]
    rw [List.length_cons, range_shift]
    rfl

-- The first faulting channel aborts the walk: the error carries its index
-- and no later channel is visited.
theorem rawLoop_fault {H : Type} (read : H → Except ReturnCode ℚ) (g : H)
    (rc : ReturnCode) (hg : read g = Except.error rc) :
    ∀ (pre : List H) (post : List H) (n : Nat), (∀ x ∈ pre, ∃ v, read x = Except.ok v) →
      rawLoop read n (pre ++ g :: post) =
        (Except.error (ScaleError.phidget_error rc (n + pre.length)),
          (List.range (pre.length + 1)).map (fun j => n + j)) := by
  intro pre
  induction pre with
  | nil =>
    intro post n _
    rw [List.nil_append, rawLoop, hg]
    simp [List.range_succ]
  | cons x pre ih =>
    intro post n hpre
    obtain ⟨v, hv⟩ := hpre x (List.mem_cons_self x pre)
    rw [List.cons_append, rawLoop, hv,
      ih post (n + 1) (fun y hy => hpre y (List.mem_cons_of_mem x hy))]
    rw [List.length_cons, range_shift n (pre.length + 1)]
    have hidx : n + 1 + pre.length = n + (pre.length + 1) := by omega
    rw [hidx]
    rfl

/-! ### Behaviour of the sampling loop -/

-- When every weight read below `samples` succeeds, a completed run returns
-- exactly the successive oracle values.
theorem gmwLoop_allOk (now : Nat → ℚ) (gw : Nat → Except ScaleError F) (interval : ℚ)
    (samples : Nat) (f : Nat → F) (fuel : Nat) :
    ∀ (k r : Nat) (init : ℚ) (acc : List (ℚ × ℚ × F))
      (res : Except ScaleError (List (ℚ × ℚ × F))),
      (∀ j, j < samples - acc.length → gw (r + j) = Except.ok (f (r + j))) →
      acc.length ≤ samples →
      gmwLoop now gw interval samples fuel k r init acc = some res →
      ∃ tr, res = Except.ok tr ∧
        tr.map (fun ev => ev.2.2) =
          acc.reverse.map (fun ev => ev.2.2) ++
            (List.range (samples - acc.length)).map (fun j => f (r + j)) := by
  induction fuel with
  | zero => intro k r init acc res _ _ hrun; simp [gmwLoop] at hrun
  | succ fuel ih =>
    intro k r init acc res hok hle hrun
    simp only [gmwLoop] at hrun
    by_cases hstop : samples ≤ acc.length
    · rw [if_pos hstop] at hrun
      have hres : Except.ok acc.reverse = res := by injection hrun
      subst hres
      refine ⟨acc.reverse, rfl, ?_⟩
      have hz : samples - acc.length = 0 := by omega
      simp [hz]
    · rw [if_neg hstop] at hrun
      by_cases hg : now k - init > interval
      · rw [if_pos hg] at hrun
        have hgwr : gw r = Except.ok (f r) := by
          have := hok 0 (by omega)
          simpa using this
        rw [hgwr] at hrun
        have hok2 : ∀ j, j < samples - ((now k, now (k + 1), f r) :: acc).length →
            gw (r + 1 + j) = Except.ok (f (r + 1 + j)) := by
          intro j hj
          have he : r + 1 + j = r + (j + 1) := by omega
          rw [he]
          apply hok
          simp only [List.length_cons] at hj
          omega
        have hle2 : ((now k, now (k + 1), f r) :: acc).length ≤ samples := by
          simp only [List.length_cons]
          omega
        obtain ⟨tr, htr, hmap⟩ := ih (k + 2) (r + 1) (now (k + 1)) _ res hok2 hle2 hrun
        refine ⟨tr, htr, ?_⟩
        rw [hmap]
        simp only [List.reverse_cons, List.map_append, List.map_cons, List.map_nil,
          List.length_cons]
        have hm : samples - acc.length = (samples - (acc.length + 1)) + 1 := by omega
        rw [hm, List.range_succ_eq_map, List.map_cons, List.map_map]
        have hf0 : f (r + 0) = f r := by norm_num
        have hfs : ((fun j => f (r + j)) ∘ Nat.succ) = fun j => f (r + 1 + j) := by
          funext j
          simp only [Function.comp_apply]
          congr 1
          omega
        rw [hf0, hfs, List.append_assoc]
        rfl
      · rw [if_neg hg] at hrun
        exact ih (k + 1) r init acc res hok hle hrun

-- If the first failing weight read lies before `samples`, a completed run
-- surfaces exactly that error.
theorem gmwLoop_err (now : Nat → ℚ) (gw : Nat → Except ScaleError F) (interval : ℚ)
    (samples : Nat) (kE : Nat) (e : ScaleError)
    (hkE : gw kE = Except.error e) (hpre : ∀ t, t < kE → ∃ w, gw t = Except.ok w)
    (fuel : Nat) :
    ∀ (k r : Nat) (init : ℚ) (acc : List (ℚ × ℚ × F))
      (res : Except ScaleError (List (ℚ × ℚ × F))),
      r ≤ kE → kE - r < samples - acc.length →
      gmwLoop now gw interval samples fuel k r init acc = some res →
      res = Except.error e := by
  induction fuel with
  | zero => intro k r init acc res _ _ hrun; simp [gmwLoop] at hrun
  | succ fuel ih =>
    intro k r init acc res hr hrem hrun
    simp only [gmwLoop] at hrun
    by_cases hstop : samples ≤ acc.length
    · exfalso; omega
    · rw [if_neg hstop] at hrun
      by_cases hg : now k - init > interval
      · rw [if_pos hg] at hrun
        by_cases hre : r = kE
        · subst hre
          rw [hkE] at hrun
          have : Except.error e = res := by injection hrun
          exact this.symm
        · obtain ⟨w, hw⟩ := hpre r (by omega)
          rw [hw] at hrun
          exact ih (k + 2) (r + 1) (now (k + 1)) _ res (by omega)
            (by simp only [List.length_cons]; omega) hrun
      · rw [if_neg hg] at hrun
        exact ih (k + 1) r init acc res hr hrem hrun

-- Every completed run is paced: each accepted sample's clock check exceeds
-- the previous acceptance time by more than the interval.
theorem gmwLoop_paced (now : Nat → ℚ) (gw : Nat → Except ScaleError F) (interval : ℚ)
    (samples : Nat) (fuel : Nat) :
    ∀ (k r : Nat) (init : ℚ) (acc tr : List (ℚ × ℚ × F)),
      gmwLoop now gw interval samples fuel k r init acc = some (Except.ok tr) →
      ∃ suf, tr = acc.reverse ++ suf ∧ Paced interval init suf := by
  induction fuel with
  | zero => intro k r init acc tr hrun; simp [gmwLoop] at hrun
  | succ fuel ih =>
    intro k r init acc tr hrun
    simp only [gmwLoop] at hrun
    by_cases hstop : samples ≤ acc.length
    · rw [if_pos hstop] at hrun
      have hres : (Except.ok acc.reverse : Except ScaleError (List (ℚ × ℚ × F))) =
          Except.ok tr := by injection hrun
      have htr : acc.reverse = tr := by injection hres
      exact ⟨[], by simp [htr.symm], trivial⟩
    · rw [if_neg hstop] at hrun
      by_cases hg : now k - init > interval
      · rw [if_pos hg] at hrun
        cases hgw : gw r with
        | error e =>
          rw [hgw] at hrun
          have : Except.error e = Except.ok tr := by injection hrun
          exact absurd this (by simp)
        | ok w =>
          rw [hgw] at hrun
          obtain ⟨suf, hsuf, hp⟩ := ih (k + 2) (r + 1) (now (k + 1)) _ tr hrun
          refine ⟨(now k, now (k + 1), w) :: suf, ?_, hg, hp⟩
          rw [hsuf]
          simp
      · rw [if_neg hg] at hrun
        exact ih (k + 1) r init acc tr hrun

/-! ## The claims -/

/-- C1, counterexample: the claim asserts that the median of an even-length
slice is the lower median, giving 2.0 on [4.0, 1.0, 3.0, 2.0].  The source
`median` returns the element at sorted index len / 2, which for an even
length is the upper of the two middle elements: it returns 3.0 on this
input, not 2.0. -/
theorem C1_counterexample :
    median ([4, 1, 3, 2].map F.val) = some (F.val 3) ∧
    median ([4, 1, 3, 2].map F.val) ≠ some (F.val 2) := by
  decide

/-- C1 (amended): for every non-empty sequence of pairwise comparable
weight samples, `median` returns the value at index len / 2 of the
ascending-sorted sequence — for even lengths this is the upper of the two
middle elements, so the median of [4.0, 1.0, 3.0, 2.0] is 3.0 (and of
[3.0, 1.0, 2.0] it is 2.0) — and `get_median_weight` obeys the same rule
over its collected weights. -/
theorem C1_median_sorted_index (l s : List ℚ) (hs : List.Sorted (· ≤ ·) s)
    (hp : s.Perm l) (hi : l.length / 2 < s.length) :
    median (l.map F.val) = some (F.val (s.get ⟨l.length / 2, hi⟩)) ∧
    (∀ (now : Nat → ℚ) (gw : Nat → Except ScaleError F) (interval : ℚ)
        (samples fuel : Nat) (tr : List (ℚ × ℚ × F)),
      gmwLoop now gw interval samples fuel 1 0 (now 0) [] = some (Except.ok tr) →
      tr.map (fun ev => ev.2.2) = l.map F.val →
      get_median_weight now gw interval samples fuel =
        some (Except.ok (some (F.val (s.get ⟨l.length / 2, hi⟩))))) := by
  have hmed := median_map_val l s hs hp hi
  refine ⟨hmed, ?_⟩
  intro now gw interval samples fuel tr hrun hmap
  simp only [get_median_weight, hrun, hmap, hmed]

/-- Witness for C1: the amended index rule evaluated on the two sample
sequences named by the claim. -/
theorem C1_median_sorted_index_witness :
    median ([4, 1, 3, 2].map F.val) =
      some (F.val (([1, 2, 3, 4] : List ℚ).get ⟨([4, 1, 3, 2] : List ℚ).length / 2, by decide⟩)) ∧
    median ([3, 1, 2].map F.val) =
      some (F.val (([1, 2, 3] : List ℚ).get ⟨([3, 1, 2] : List ℚ).length / 2, by decide⟩)) :=
  ⟨(C1_median_sorted_index [4, 1, 3, 2] [1, 2, 3, 4] (by decide) (by decide) (by decide)).1,
   (C1_median_sorted_index [3, 1, 2] [1, 2, 3] (by decide) (by decide) (by decide)).1⟩

/-- C2, divergence of `get_raw_medians` from its contract: with three
samples whose channel-0 readings are chronologically [3, 1, 2] and whose
channels 1..3 read in disjoint higher decades, collection succeeds as
recorded, yet the call returns 1 at position 0 — the chronologically middle,
never-sorted reading — because the source sorts the outer array of the four
per-channel vectors instead of sorting each vector.  The per-channel median
of channel 0 required by the claim is 2. -/
theorem C2_get_raw_medians_divergence :
    grmRounds demoRead 0 3 [[], [], [], []] =
      Except.ok [[3, 1, 2], [10, 11, 12], [20, 21, 22], [30, 31, 32]] ∧
    get_raw_medians demoRead 3 = Except.ok [1, 11, 21, 31] ∧
    medianQ [3, 1, 2] = 2 ∧ (1 : ℚ) ≠ 2 := by
  decide

/-- C3: when all four channel reads succeed, `get_weight` returns exactly
the dot product of the readings with the coefficients minus the offset, and
when `get_raw_readings` fails, `get_weight` returns that same error
unchanged. -/
theorem C3_get_weight_linear {H : Type} (read : H → Except ReturnCode ℚ)
    (s : ConnectedScale H) (h0 h1 h2 h3 : H) (v0 v1 v2 v3 c0 c1 c2 c3 : ℚ)
    (e : ScaleError) :
    (s.vins = [h0, h1, h2, h3] → s.coefficients = [c0, c1, c2, c3] →
      read h0 = Except.ok v0 → read h1 = Except.ok v1 →
      read h2 = Except.ok v2 → read h3 = Except.ok v3 →
      get_weight read s =
        Except.ok (v0 * c0 + v1 * c1 + v2 * c2 + v3 * c3 - s.offset)) ∧
    (get_raw_readings read s = Except.error e →
      get_weight read s = Except.error e) := by
  constructor
  · intro hv hc r0 r1 r2 r3
    have hdot : dot_product [v0, v1, v2, v3] [c0, c1, c2, c3] =
        v0 * c0 + v1 * c1 + v2 * c2 + v3 * c3 := by
      simp [dot_product]
      ring
    simp only [get_weight, get_raw_readings, getRawReadingsT, hv, rawLoop, r0, r1, r2, r3,
      Except.map, hc, hdot]
  · intro herr
    simp [get_weight, herr]

/-- Witness for C3: the claim example (readings all 1, coefficients
[1, 2, 3, 4], offset 0 gives 10) and the error-propagation case on a scale
whose channel 2 faults. -/
theorem C3_get_weight_linear_witness :
    get_weight demoChanRead demoScale =
      Except.ok (1 * 1 + 1 * 2 + 1 * 3 + 1 * 4 - demoScale.offset) ∧
    get_weight demoBadRead demoScale =
      Except.error (ScaleError.phidget_error 9 2) :=
  ⟨(C3_get_weight_linear demoChanRead demoScale 0 1 2 3 1 1 1 1 1 2 3 4
      ScaleError.ioError).1 rfl rfl rfl rfl rfl rfl,
   (C3_get_weight_linear demoBadRead demoScale 0 1 2 3 1 1 1 1 1 2 3 4
      (ScaleError.phidget_error 9 2)).2 rfl⟩

/-- C4: `get_raw_readings` visits the channels in ascending index order —
with all reads succeeding the visit trace is exactly 0, 1, ..., n-1 — and
the first faulting channel short-circuits the walk: the error is tagged
with that channel's index and no later channel is visited. -/
theorem C4_first_fault_short_circuit {H : Type} (read : H → Except ReturnCode ℚ)
    (s : ConnectedScale H) :
    (∀ f : H → ℚ, (∀ x ∈ s.vins, read x = Except.ok (f x)) →
      getRawReadingsT read s = (Except.ok (s.vins.map f), List.range s.vins.length)) ∧
    (∀ (pre post : List H) (g : H) (rc : ReturnCode),
      s.vins = pre ++ g :: post → (∀ x ∈ pre, ∃ v, read x = Except.ok v) →
      read g = Except.error rc →
      getRawReadingsT read s =
        (Except.error (ScaleError.phidget_error rc pre.length),
          List.range (pre.length + 1))) := by
  constructor
  · intro f hok
    rw [getRawReadingsT, rawLoop_ok read f s.vins 0 hok]
    simp
  · intro pre post g rc hsplit hpre hg
    rw [getRawReadingsT, hsplit, rawLoop_fault read g rc hg pre post 0 hpre]
    simp

/-- Witness for C4: on a four-channel scale whose channels 0 and 1 succeed
and whose channel 2 faults, the error carries index 2 and the visit trace is
[0, 1, 2] — channel 3 is never read; with all channels succeeding the trace
is [0, 1, 2, 3]. -/
theorem C4_first_fault_short_circuit_witness :
    getRawReadingsT demoBadRead demoScale =
      (Except.error (ScaleError.phidget_error 9 2), List.range (2 + 1)) ∧
    getRawReadingsT demoChanRead demoScale =
      (Except.ok (demoScale.vins.map fun _ => (1 : ℚ)), List.range demoScale.vins.length) :=
  ⟨by
    have h := (C4_first_fault_short_circuit demoBadRead demoScale).2
      [0, 1] [3] 2 9 rfl (by
        intro x hx
        simp only [List.mem_cons, List.not_mem_nil, or_false] at hx
        rcases hx with rfl | rfl
        · exact ⟨1, rfl⟩
        · exact ⟨1, rfl⟩) rfl
    simpa using h,
   (C4_first_fault_short_circuit demoChanRead demoScale).1 (fun _ => (1 : ℚ))
     (fun x _ => rfl)⟩

/-- C5: `update_coefficients` installs exactly the supplied coefficients and
`update_offset` exactly the supplied offset, while both preserve the device
identifier, the untouched calibration component and the channel handles
(hence the channel count) unchanged; both are total functions. -/
theorem C5_update_frame {H : Type} (s : ConnectedScale H) (c : List ℚ) (o : ℚ) :
    (update_coefficients s c).coefficients = c ∧
    (update_coefficients s c).phidget_id = s.phidget_id ∧
    (update_coefficients s c).offset = s.offset ∧
    (update_coefficients s c).vins = s.vins ∧
    (update_offset s o).offset = o ∧
    (update_offset s o).phidget_id = s.phidget_id ∧
    (update_offset s o).coefficients = s.coefficients ∧
    (update_offset s o).vins = s.vins :=
  ⟨rfl, rfl, rfl, rfl, rfl, rfl, rfl, rfl⟩

/-- C6: on a completed run, if every weight read below `samples` succeeds
the loop collects exactly `samples` weights — the successive `get_weight`
results in order — and returns their median; if some `get_weight` call
before `samples` is the first to fail, the whole call fails with exactly
that error and no median is computed. -/
theorem C6_exact_samples_or_abort (now : Nat → ℚ) (gw : Nat → Except ScaleError F)
    (interval : ℚ) (samples fuel : Nat) (f : Nat → F)
    (res : Except ScaleError (List (ℚ × ℚ × F)))
    (hrun : gmwLoop now gw interval samples fuel 1 0 (now 0) [] = some res) :
    ((∀ t, t < samples → gw t = Except.ok (f t)) →
      ∃ tr, res = Except.ok tr ∧ tr.length = samples ∧
        tr.map (fun ev => ev.2.2) = (List.range samples).map f ∧
        get_median_weight now gw interval samples fuel =
          some (Except.ok (median ((List.range samples).map f)))) ∧
    (∀ kE e, kE < samples → (∀ t, t < kE → ∃ w, gw t = Except.ok w) →
      gw kE = Except.error e →
      res = Except.error e ∧
      get_median_weight now gw interval samples fuel = some (Except.error e)) := by
  constructor
  · intro hok
    have hok2 : ∀ j, j < samples - ([] : List (ℚ × ℚ × F)).length →
        gw (0 + j) = Except.ok (f (0 + j)) := by
      intro j hj
      simp only [List.length_nil, Nat.sub_zero] at hj
      simpa using hok j hj
    obtain ⟨tr, htr, hmap⟩ :=
      gmwLoop_allOk now gw interval samples f fuel 1 0 (now 0) [] res hok2 (by simp) hrun
    have hmap2 : tr.map (fun ev => ev.2.2) = (List.range samples).map f := by
      rw [hmap]
      simp only [List.reverse_nil, List.map_nil, List.nil_append, List.length_nil,
        Nat.sub_zero]
      apply List.map_congr_left
      intro j _
      norm_num
    have hlen : tr.length = samples := by
      have hml := congrArg List.length hmap2
      simpa using hml
    refine ⟨tr, htr, hlen, hmap2, ?_⟩
    simp only [get_median_weight, hrun, htr, hmap2]
  · intro kE e hkE hpre herr
    have hres : res = Except.error e := by
      apply gmwLoop_err now gw interval samples kE e herr hpre fuel 1 0 (now 0) [] res
      · omega
      · simp only [List.length_nil, Nat.sub_zero]
        omega
      · exact hrun
    refine ⟨hres, ?_⟩
    simp only [get_median_weight, hrun, hres]

/-- Witness for C6: a two-sample run whose reads both succeed returns the
median of the two collected weights, and a run whose second read fails
returns exactly that error. -/
theorem C6_exact_samples_or_abort_witness :
    get_median_weight demoNow demoGw 0 2 5 =
      some (Except.ok (median ((List.range 2).map fun _ => F.val 7))) ∧
    get_median_weight demoNow demoGwErr 0 2 5 = some (Except.error ScaleError.ioError) := by
  constructor
  · obtain ⟨tr, htr, hlen, hmap, hgmw⟩ :=
      (C6_exact_samples_or_abort demoNow demoGw 0 2 5 (fun _ => F.val 7)
        (Except.ok [(1, 2, F.val 7), (3, 4, F.val 7)])
        (by norm_num [gmwLoop, demoNow, demoGw])).1 (fun t ht => rfl)
    exact hgmw
  · exact ((C6_exact_samples_or_abort demoNow demoGwErr 0 2 5 (fun _ => F.val 7)
      (Except.error ScaleError.ioError)
      (by norm_num [gmwLoop, demoNow, demoGwErr])).2 1 ScaleError.ioError (by omega)
      (by
        intro t ht
        interval_cases t
        exact ⟨F.val 7, rfl⟩) rfl).2

/-- C7: with `samples = 0` the loop body never runs and `median` is applied
to the empty vector; its index `weights[0]` is out of bounds, so the call
panics — it never produces a MedianGrams value — and the median of an empty
sequence is undefined. -/
theorem C7_zero_samples (now : Nat → ℚ) (gw : Nat → Except ScaleError F)
    (interval : ℚ) (fuel : Nat) (hfuel : 1 ≤ fuel) :
    get_median_weight now gw interval 0 fuel = some (Except.ok none) ∧
    median ([] : List F) = none := by
  obtain ⟨m, rfl⟩ : ∃ m, fuel = m + 1 := ⟨fuel - 1, by omega⟩
  exact ⟨by simp [get_median_weight, gmwLoop, median, sortByM], rfl⟩

/-- Witness for C7: the zero-sample call on the concrete clock and oracle. -/
theorem C7_zero_samples_witness :
    get_median_weight demoNow demoGw 0 0 1 = some (Except.ok none) :=
  (C7_zero_samples demoNow demoGw 0 1 (by decide)).1

/-- C8: when binding the device identifier fails, `connect` returns
InvalidPhidgetId after the very first bind attempt — no channel is opened
and the identifier is not tried against any further channel; when binding
succeeds and channel i is the first whose open fails, `connect` returns the
device fault tagged with i and abandons every later channel, returning no
scale; when every channel opens, the scale owns exactly the four opened
handles with the given identifier, offset and coefficients. -/
theorem C8_connect_lifecycle {H : Type} (pid : Int) (off : ℚ) (cf : List ℚ)
    (env : PhidgetEnv H) :
    (env.bindOk = false →
      connect pid off cf env =
        (Except.error ScaleError.invalidPhidgetId, [ConnEvent.bindId 0])) ∧
    (∀ i rc, env.bindOk = true → i < 4 →
      (∀ j, j < i → ∃ h, env.openResult j = Except.ok h) →
      env.openResult i = Except.error rc →
      connect pid off cf env =
        (Except.error (ScaleError.phidget_error rc i),
          ((List.range i).map (fun j => [ConnEvent.bindId j, ConnEvent.openw j])).join ++
            [ConnEvent.bindId i, ConnEvent.openw i])) ∧
    (∀ h : Nat → H, env.bindOk = true →
      (∀ j, j < 4 → env.openResult j = Except.ok (h j)) →
      connect pid off cf env =
        (Except.ok { phidget_id := pid, offset := off, coefficients := cf,
                     vins := [h 0, h 1, h 2, h 3] },
          [ConnEvent.bindId 0, ConnEvent.openw 0, ConnEvent.bindId 1, ConnEvent.openw 1,
           ConnEvent.bindId 2, ConnEvent.openw 2, ConnEvent.bindId 3,
           ConnEvent.openw 3])) := by
  refine ⟨?_, ?_, ?_⟩
  · intro hb
    simp [connect, connectLoop, hb]
  · intro i rc hb hi hok herr
    interval_cases i
    · simp [connect, connectLoop, hb, herr, Except.map]
    · obtain ⟨g0, h0⟩ := hok 0 (by omega)
      simp [connect, connectLoop, hb, h0, herr, Except.map, List.range_succ]
    · obtain ⟨g0, h0⟩ := hok 0 (by omega)
      obtain ⟨g1, h1⟩ := hok 1 (by omega)
      simp [connect, connectLoop, hb, h0, h1, herr, Except.map, List.range_succ]
    · obtain ⟨g0, h0⟩ := hok 0 (by omega)
      obtain ⟨g1, h1⟩ := hok 1 (by omega)
      obtain ⟨g2, h2⟩ := hok 2 (by omega)
      simp [connect, connectLoop, hb, h0, h1, h2, herr, Except.map, List.range_succ]
  · intro h hb hok
    have h0 := hok 0 (by omega)
    have h1 := hok 1 (by omega)
    have h2 := hok 2 (by omega)
    have h3 := hok 3 (by omega)
    simp [connect, connectLoop, hb, h0, h1, h2, h3, Except.map]

/-- Witness for C8: the three outcomes on concrete driver environments —
failed binding, first open fault at channel 2, and full success. -/
theorem C8_connect_lifecycle_witness :
    connect 5 0 [1, 2, 3, 4] envBad =
      (Except.error ScaleError.invalidPhidgetId, [ConnEvent.bindId 0]) ∧
    connect 5 0 [1, 2, 3, 4] envFault =
      (Except.error (ScaleError.phidget_error 9 2),
        ((List.range 2).map (fun j => [ConnEvent.bindId j, ConnEvent.openw j])).join ++
          [ConnEvent.bindId 2, ConnEvent.openw 2]) ∧
    connect 5 0 [1, 2, 3, 4] envGood =
      (Except.ok { phidget_id := 5, offset := 0, coefficients := [1, 2, 3, 4],
                   vins := [100 + 0, 100 + 1, 100 + 2, 100 + 3] },
        [ConnEvent.bindId 0, ConnEvent.openw 0, ConnEvent.bindId 1, ConnEvent.openw 1,
         ConnEvent.bindId 2, ConnEvent.openw 2, ConnEvent.bindId 3, ConnEvent.openw 3]) :=
  ⟨(C8_connect_lifecycle 5 0 [1, 2, 3, 4] envBad).1 rfl,
   (C8_connect_lifecycle 5 0 [1, 2, 3, 4] envFault).2.1 2 9 rfl (by omega)
     (by
       intro j hj
       interval_cases j
       · exact ⟨10, rfl⟩
       · exact ⟨11, rfl⟩) rfl,
   (C8_connect_lifecycle 5 0 [1, 2, 3, 4] envGood).2.2 (fun j => 100 + j) rfl
     (fun j _ => rfl)⟩

/-- C9: every completed `get_median_weight` run is paced — each accepted
observation's clock check exceeds the previous acceptance time (initially
the start of the call) by more than the interval, so no hardware read
occurs before the interval has elapsed since the previous accepted
sample. -/
theorem C9_pacing (now : Nat → ℚ) (gw : Nat → Except ScaleError F) (interval : ℚ)
    (samples fuel : Nat) (tr : List (ℚ × ℚ × F))
    (hrun : gmwLoop now gw interval samples fuel 1 0 (now 0) [] = some (Except.ok tr)) :
    Paced interval (now 0) tr := by
  obtain ⟨suf, hsuf, hp⟩ :=
    gmwLoop_paced now gw interval samples fuel 1 0 (now 0) [] tr hrun
  simpa [hsuf] using hp

/-- Witness for C9: the concrete two-sample run is paced. -/
theorem C9_pacing_witness :
    Paced 0 (demoNow 0) [(1, 2, F.val 7), (3, 4, F.val 7)] :=
  C9_pacing demoNow demoGw 0 2 5 [(1, 2, F.val 7), (3, 4, F.val 7)]
    (by norm_num [gmwLoop, demoNow, demoGw])

/-- C10, counterexample: the claim asserts that `median` panics on every
slice containing a NaN, but the sort of a one-element slice performs no
comparison at all, so `median` of the singleton [NaN] returns the NaN value
instead of aborting. -/
theorem C10_counterexample :
    median [F.nan] = some F.nan ∧ median [F.nan] ≠ none := by
  decide

/-- C10 (amended): for every slice of length at least two that contains a
NaN, the sort comparator's partial_cmp unwrap panics, so `median` — and
hence `get_median_weight` whenever at least two sampled weights are
collected and one is NaN — aborts instead of returning a value or an error;
a singleton slice performs no comparison; and under the precondition that no
sample is NaN, the comparator panic branch is unreachable. -/
theorem C10_nan_panic :
    (∀ l : List F, F.nan ∈ l → 2 ≤ l.length → sortByM l = none ∧ median l = none) ∧
    (∀ l : List F, F.nan ∉ l → ∃ s, sortByM l = some s) ∧
    (∀ (now : Nat → ℚ) (gw : Nat → Except ScaleError F) (interval : ℚ)
        (samples fuel : Nat) (tr : List (ℚ × ℚ × F)),
      gmwLoop now gw interval samples fuel 1 0 (now 0) [] = some (Except.ok tr) →
      F.nan ∈ tr.map (fun ev => ev.2.2) → 2 ≤ tr.length →
      get_median_weight now gw interval samples fuel = some (Except.ok none)) := by
  refine ⟨?_, sortByM_isSome, ?_⟩
  · intro l hmem hlen
    have hs := sortByM_nan l hmem hlen
    exact ⟨hs, by simp [median, hs]⟩
  · intro now gw interval samples fuel tr hrun hmem hlen
    have hm : median (tr.map fun ev => ev.2.2) = none := by
      have hs := sortByM_nan _ hmem (by simpa using hlen)
      simp [median, hs]
    simp [get_median_weight, hrun, hm]

/-- Witness for C10: a two-element slice containing a NaN makes `median`
panic, while a NaN-free slice sorts without reaching the panic branch. -/
theorem C10_nan_panic_witness :
    median [F.nan, F.val 0] = none ∧ (∃ s, sortByM [F.val 1] = some s) :=
  ⟨(C10_nan_panic.1 [F.nan, F.val 0] (by decide) (by decide)).2,
   C10_nan_panic.2.1 [F.val 1] (by decide)⟩

end Libra
